import Mathlib

/-!
Verification development for the divide-and-conquer convex hull program
(`src/convex_hull.py`).

The program works on integer points; its floating-point quantities
(`triangle_area`, the centroid of `sort_clockwise`, the `EPSILON` tolerance)
are modelled exactly over `ℚ`, which agrees with IEEE-754 double arithmetic
for the coordinate magnitudes used here: the signed area of an integer
triangle is a half-integer and all the doubles involved are exact below
`2 ^ 52`.

So that every function is kernel-computable, the executable definitions work
over `ℤ`: the orientation predicates compare the doubled signed area (an
integer) with `0`, and the angular sort key of `sort_clockwise` uses the
displacement vectors scaled by the (positive) number of points.  The
theorems `is_clockwise_spec`, `is_counter_clockwise_spec`, `collinear_spec`
and `keyLe_iff_keyLeQ` prove that these integer computations coincide with
the exact rational models of the source's floating-point expressions, so the
executable definitions and the source agree.

The unbounded `while True` loops of the source (the gift-wrapping loop of
`base_case_hull` and the tangent-search loops of `merge_hulls`) are modelled
with an explicit fuel argument, returning `none` when the fuel runs out.
The fuels are chosen so that exhaustion happens exactly when the
corresponding Python loop diverges: each loop body is a deterministic
function of a state ranging over a finite set, so a loop that runs for more
steps than there are states revisits a state and runs forever.
-/

namespace ConvexHull

/-- Python `Point = Tuple[int, int]`: a point with integer coordinates. -/
abbrev Point := ℤ × ℤ

/-- Python `EPSILON = sys.float_info.epsilon`: the machine epsilon of IEEE-754
double precision, `2 ^ (-52)`, modelled exactly as a rational number. -/
def EPSILON : ℚ := 1 / 2 ^ 52

/-- Twice the value computed by Python `triangle_area(a, b, c)`: the integer
`(cx - bx) * (by - ay) - (bx - ax) * (cy - by)`. -/
def area2 (a b c : Point) : ℤ :=
  (c.1 - b.1) * (b.2 - a.2) - (b.1 - a.1) * (c.2 - b.2)

/-- Python `triangle_area(a, b, c)`:
`((cx - bx) * (by - ay) - (bx - ax) * (cy - by)) / 2`.  The integer
computation is exact, and the final division by 2 yields a half-integer,
represented exactly by a double (and here by a rational). -/
def triangle_area (a b c : Point) : ℚ :=
  (area2 a b c : ℚ) / 2

/-- Python `is_clockwise(a, b, c)`, i.e. `triangle_area(a, b, c) < -EPSILON`.
Since the area is a half-integer and `0 < EPSILON < 1/2`, this is the
integer test `area2 < 0`; `is_clockwise_spec` proves the equivalence. -/
def is_clockwise (a b c : Point) : Bool :=
  decide (area2 a b c < 0)

/-- Python `is_counter_clockwise(a, b, c)`, i.e.
`triangle_area(a, b, c) > EPSILON`; equivalently `area2 > 0`
(`is_counter_clockwise_spec`). -/
def is_counter_clockwise (a b c : Point) : Bool :=
  decide (0 < area2 a b c)

/-- Python `collinear(a, b, c)`, i.e. `abs(triangle_area(a, b, c)) <= EPSILON`;
equivalently `area2 = 0` (`collinear_spec`). -/
def collinear (a b c : Point) : Bool :=
  decide (area2 a b c = 0)

/-- Python tuple comparison `p <= q` on `(int, int)` pairs: lexicographic,
ascending x breaking ties by ascending y.  This is the order used by
`points.sort()` in `compute_hull` and in `base_case_hull`. -/
def lexLe (p q : Point) : Prop :=
  p.1 < q.1 ∨ (p.1 = q.1 ∧ p.2 ≤ q.2)

instance : DecidableRel lexLe := fun p q => by unfold lexLe; infer_instance

/-- Python `points.sort()` on a list of `(int, int)` tuples: a stable sort by
the lexicographic tuple order. -/
def sortLex (l : List Point) : List Point :=
  List.insertionSort lexLe l

/-- Python `points = list(set(points)); points.sort()` from `compute_hull`:
the deduplicated points in ascending lexicographic order.  (The hash order
produced by `list(set(...))` is irrelevant because the list is sorted by a
total order on the distinct tuples immediately afterwards.) -/
def sortedDedup (l : List Point) : List Point :=
  sortLex l.dedup

/-- The arithmetic-mean centroid `(sum x / n, sum y / n)` computed by
`sort_clockwise`, modelled exactly over `ℚ`. -/
def centroid (l : List Point) : ℚ × ℚ :=
  ((l.map fun p => (p.1 : ℚ)).sum / l.length,
   (l.map fun p => (p.2 : ℚ)).sum / l.length)

/-- The displacement of a point from the centroid:
`(point[0] - centroid_x, point[1] - centroid_y)`. -/
def vsub (p : Point) (c : ℚ × ℚ) : ℚ × ℚ :=
  ((p.1 : ℚ) - c.1, (p.2 : ℚ) - c.2)

/-- Two-dimensional cross product of rational displacement vectors. -/
def cross (u v : ℚ × ℚ) : ℚ :=
  u.1 * v.2 - u.2 * v.1

/-- Stratum of the normalized angle `(atan2(y, x) + tau) % tau ∈ [0, 2π)`
used as the primary sort key of `sort_clockwise`:
stratum 0 is angle `0` (`y = 0, x ≥ 0`; this includes the zero vector, since
`atan2(0, 0) = 0`), stratum 1 is `(0, π)` (`y > 0`), stratum 2 is `π`
(`y = 0, x < 0`), and stratum 3 is `(π, 2π)` (`y < 0`). -/
def angClassQ (v : ℚ × ℚ) : ℕ :=
  if 0 < v.2 then 1 else if v.2 = 0 then (if 0 ≤ v.1 then 0 else 2) else 3

/-- Strict comparison of normalized `atan2` angles of rational vectors.
Angles in different strata compare by stratum; within the open half-plane
strata 1 and 3 the angle difference lies in `(-π, π)`, so the angle order is
the sign of the cross product; within strata 0 and 2 the angle is constant. -/
def angLtQ (u v : ℚ × ℚ) : Prop :=
  angClassQ u < angClassQ v ∨
    (angClassQ u = angClassQ v ∧ (angClassQ u = 1 ∨ angClassQ u = 3) ∧
      0 < cross u v)

/-- Equality of normalized `atan2` angles of rational vectors: same stratum,
and within the open half-plane strata also a vanishing cross product. -/
def angEqQ (u v : ℚ × ℚ) : Prop :=
  angClassQ u = angClassQ v ∧
    (angClassQ u = 0 ∨ angClassQ u = 2 ∨ cross u v = 0)

/-- The sort-key order of `sort_clockwise` over the exact rational centroid:
Python sorts by the tuple `(normalized_angle, point[0], point[1])` ascending,
so `p` precedes `q` when its angle is strictly smaller, or the angles are
equal and `(x, y)` is lexicographically no larger. -/
def keyLeQ (c : ℚ × ℚ) (p q : Point) : Prop :=
  angLtQ (vsub p c) (vsub q c) ∨ (angEqQ (vsub p c) (vsub q c) ∧ lexLe p q)

/-- Sum of the x coordinates. -/
def sumX (l : List Point) : ℤ :=
  (l.map Prod.fst).sum

/-- Sum of the y coordinates. -/
def sumY (l : List Point) : ℤ :=
  (l.map Prod.snd).sum

/-- The displacement of `p` from the centroid of `l`, scaled by the positive
integer `l.length`: an integer vector pointing in the same direction as
`vsub p (centroid l)`.  Scaling by a positive factor changes neither the
angle stratum nor the sign of a cross product, so the angular comparisons
below agree with the rational ones (`keyLe_iff_keyLeQ`). -/
def svec (l : List Point) (p : Point) : ℤ × ℤ :=
  ((l.length : ℤ) * p.1 - sumX l, (l.length : ℤ) * p.2 - sumY l)

/-- Integer cross product. -/
def crossZ (u v : ℤ × ℤ) : ℤ :=
  u.1 * v.2 - u.2 * v.1

/-- Angle stratum of an integer vector (same strata as `angClassQ`). -/
def angClassZ (v : ℤ × ℤ) : ℕ :=
  if 0 < v.2 then 1 else if v.2 = 0 then (if 0 ≤ v.1 then 0 else 2) else 3

/-- Strict angle comparison of integer vectors (same as `angLtQ`). -/
def angLtZ (u v : ℤ × ℤ) : Prop :=
  angClassZ u < angClassZ v ∨
    (angClassZ u = angClassZ v ∧ (angClassZ u = 1 ∨ angClassZ u = 3) ∧
      0 < crossZ u v)

instance : DecidableRel angLtZ := fun u v => by unfold angLtZ; infer_instance

/-- Angle equality of integer vectors (same as `angEqQ`). -/
def angEqZ (u v : ℤ × ℤ) : Prop :=
  angClassZ u = angClassZ v ∧
    (angClassZ u = 0 ∨ angClassZ u = 2 ∨ crossZ u v = 0)

instance : DecidableRel angEqZ := fun u v => by unfold angEqZ; infer_instance

/-- The executable sort-key order of `sort_clockwise`, over the scaled
integer displacement vectors; `keyLe_iff_keyLeQ` proves it coincides with
`keyLeQ (centroid l)`. -/
def keyLe (l : List Point) (p q : Point) : Prop :=
  angLtZ (svec l p) (svec l q) ∨ (angEqZ (svec l p) (svec l q) ∧ lexLe p q)

instance (l : List Point) : DecidableRel (keyLe l) := fun p q => by
  unfold keyLe; infer_instance

/-- Python `sort_clockwise(points)`: a no-op for fewer than 2 points,
otherwise a stable sort by `(normalized_angle, x, y)` about the centroid. -/
def sort_clockwise (points : List Point) : List Point :=
  if points.length < 2 then points
  else List.insertionSort (keyLe points) points

/-- One scan `for i in range(len(points)): if is_counter_clockwise(points[p],
points[i], points[q]): q = i` of `base_case_hull`, starting from the
candidate `q = (p + 1) % len(points)`. -/
def giftStepQ (pts : List Point) (p : ℕ) : ℕ :=
  (List.range pts.length).foldl
    (fun q i =>
      if is_counter_clockwise (pts.getD p (0, 0)) (pts.getD i (0, 0))
          (pts.getD q (0, 0)) then i else q)
    ((p + 1) % pts.length)

/-- The `while True` gift-wrapping loop of `base_case_hull`.  The state of
one iteration is the index `p` alone and its successor is a function of `p`,
so if the loop runs for more than `len(points)` iterations without returning
to `p = 0`, an index repeats and the Python loop diverges; fuel
`len(points) + 1` therefore exhausts exactly on divergence. -/
def giftLoop (pts : List Point) : ℕ → ℕ → List Point → Option (List Point)
  | 0, _, _ => none
  | fuel + 1, p, hull =>
    let hull' := hull ++ [pts.getD p (0, 0)]
    let q := giftStepQ pts p
    if q = 0 then some hull' else giftLoop pts fuel q hull'

/-- Python `base_case_hull(points)`: lists of at most 3 points are returned
unchanged; otherwise the list is sorted lexicographically and gift-wrapped
starting from index 0. -/
def base_case_hull (points : List Point) : Option (List Point) :=
  if points.length ≤ 3 then some points
  else
    let pts := sortLex points
    giftLoop pts (pts.length + 1) 0 []

/-- The inner right-pointer loop of the upper-tangent search:
advance `upper_tangent[1]` to `(upper_tangent[1] + 1) % len(R)` while
`is_counter_clockwise(L[upper_tangent[0]], R[upper_tangent[1]], R[next_right])`.
The pointer only moves forward, so more than `len(R)` advances revisit a
state and the Python loop diverges; fuel `len(R) + 1` exhausts exactly then. -/
def upRight (L R : List Point) (u0 : ℕ) : ℕ → ℕ → Bool → Option (ℕ × Bool)
  | 0, _, _ => none
  | fuel + 1, u1, prog =>
    let nr := (u1 + 1) % R.length
    if is_counter_clockwise (L.getD u0 (0, 0)) (R.getD u1 (0, 0))
        (R.getD nr (0, 0)) then
      upRight L R u0 fuel nr true
    else some (u1, prog)

/-- The inner left-pointer loop of the upper-tangent search: advance
`upper_tangent[0]` to `(upper_tangent[0] - 1) % len(L)` (Python's nonnegative
modulus, here `(u0 + len(L) - 1) % len(L)`) while
`is_clockwise(R[upper_tangent[1]], L[upper_tangent[0]], L[next_left])`. -/
def upLeft (L R : List Point) (u1 : ℕ) : ℕ → ℕ → Bool → Option (ℕ × Bool)
  | 0, _, _ => none
  | fuel + 1, u0, prog =>
    let nl := (u0 + L.length - 1) % L.length
    if is_clockwise (R.getD u1 (0, 0)) (L.getD u0 (0, 0))
        (L.getD nl (0, 0)) then
      upLeft L R u1 fuel nl true
    else some (u0, prog)

/-- The outer `while True` loop of the upper-tangent search: run the two
inner scans and repeat while either made progress.  One outer iteration is a
deterministic function of the pointer pair, which ranges over
`len(L) * len(R)` states, so fuel `len(L) * len(R) + 2` exhausts exactly
when the Python loop diverges. -/
def upperLoop (L R : List Point) : ℕ → ℕ × ℕ → Option (ℕ × ℕ)
  | 0, _ => none
  | fuel + 1, t =>
    match upRight L R t.1 (R.length + 1) t.2 false with
    | none => none
    | some (u1, rprog) =>
      match upLeft L R u1 (L.length + 1) t.1 false with
      | none => none
      | some (u0, lprog) =>
        if rprog || lprog then upperLoop L R fuel (u0, u1)
        else some (u0, u1)

/-- The inner right-pointer loop of the lower-tangent search: advance
`lower_tangent[1]` to `(lower_tangent[1] - 1) % len(R)` while
`is_clockwise(L[lower_tangent[0]], R[lower_tangent[1]], R[next_right])`. -/
def lowRight (L R : List Point) (l0 : ℕ) : ℕ → ℕ → Bool → Option (ℕ × Bool)
  | 0, _, _ => none
  | fuel + 1, l1, prog =>
    let nr := (l1 + R.length - 1) % R.length
    if is_clockwise (L.getD l0 (0, 0)) (R.getD l1 (0, 0))
        (R.getD nr (0, 0)) then
      lowRight L R l0 fuel nr true
    else some (l1, prog)

/-- The inner left-pointer loop of the lower-tangent search: advance
`lower_tangent[0]` to `(lower_tangent[0] + 1) % len(L)` while
`is_counter_clockwise(R[lower_tangent[1]], L[lower_tangent[0]], L[next_left])`. -/
def lowLeft (L R : List Point) (l1 : ℕ) : ℕ → ℕ → Bool → Option (ℕ × Bool)
  | 0, _, _ => none
  | fuel + 1, l0, prog =>
    let nl := (l0 + 1) % L.length
    if is_counter_clockwise (R.getD l1 (0, 0)) (L.getD l0 (0, 0))
        (L.getD nl (0, 0)) then
      lowLeft L R l1 fuel nl true
    else some (l0, prog)

/-- The outer `while True` loop of the lower-tangent search. -/
def lowerLoop (L R : List Point) : ℕ → ℕ × ℕ → Option (ℕ × ℕ)
  | 0, _ => none
  | fuel + 1, t =>
    match lowRight L R t.1 (R.length + 1) t.2 false with
    | none => none
    | some (l1, rprog) =>
      match lowLeft L R l1 (L.length + 1) t.1 false with
      | none => none
      | some (l0, lprog) =>
        if rprog || lprog then lowerLoop L R fuel (l0, l1)
        else some (l0, l1)

/-- The largest x coordinate occurring in the list (0 for the empty list,
which the program never queries). -/
def maxFst (l : List Point) : ℤ :=
  l.foldl (fun m p => max m p.1) (l.headD (0, 0)).1

/-- The smallest x coordinate occurring in the list. -/
def minFst (l : List Point) : ℤ :=
  l.foldl (fun m p => min m p.1) (l.headD (0, 0)).1

/-- Python `L.index(max(L, key=lambda p: p[0]))`: `max` with a key returns
the first element attaining the maximal x, and `list.index` returns the
first position holding that tuple value; both coincide with the first index
whose x coordinate is maximal. -/
def right_of_left_idx (L : List Point) : ℕ :=
  L.findIdx fun p => decide (p.1 = maxFst L)

/-- Python `R.index(min(R, key=lambda p: p[0]))`: the first index whose x
coordinate is minimal. -/
def left_of_right_idx (R : List Point) : ℕ :=
  R.findIdx fun p => decide (p.1 = minFst R)

/-- The stitching step of `merge_hulls`:
`for i in range(lower_tangent[0], upper_tangent[0] + 1): result.append(L[i])`,
then either `for i in range(upper_tangent[1], lower_tangent[1] + 1)` when
`lower_tangent[1] > upper_tangent[1]`, or the two loops
`for i in range(upper_tangent[1], len(R))` and
`for i in range(0, lower_tangent[1] + 1)` otherwise.  Python's `range(a, b)`
is empty when `b ≤ a`, which the truncated subtraction mirrors. -/
def stitch (L R : List Point) (lower upper : ℕ × ℕ) : List Point :=
  ((List.range' lower.1 (upper.1 + 1 - lower.1)).map fun i => L.getD i (0, 0))
    ++
    (if upper.2 < lower.2 then
      (List.range' upper.2 (lower.2 + 1 - upper.2)).map fun i => R.getD i (0, 0)
    else
      ((List.range' upper.2 (R.length - upper.2)).map fun i => R.getD i (0, 0))
        ++ (List.range (lower.2 + 1)).map fun i => R.getD i (0, 0))

/-- Python `merge_hulls(L, R)`: sort both hulls with `sort_clockwise`, take
the anchor indices, run the two tangent searches, and stitch. -/
def merge_hulls (L R : List Point) : Option (List Point) :=
  let L' := sort_clockwise L
  let R' := sort_clockwise R
  let rol := right_of_left_idx L'
  let lor := left_of_right_idx R'
  match upperLoop L' R' (L'.length * R'.length + 2) (rol, lor) with
  | none => none
  | some ut =>
    match lowerLoop L' R' (L'.length * R'.length + 2) (rol, lor) with
    | none => none
    | some lt => some (stitch L' R' lt ut)

/-- Python `compute_hull(points)` with an explicit recursion-depth fuel:
deduplicate and sort, delegate lists of at most 5 points to
`base_case_hull`, otherwise split at the middle index, recurse on the two
halves and merge. -/
def computeHullF : ℕ → List Point → Option (List Point)
  | 0, _ => none
  | fuel + 1, points =>
    let pts := sortedDedup points
    if pts.length ≤ 5 then base_case_hull pts
    else
      let middle := pts.length / 2
      match computeHullF fuel (pts.take middle),
            computeHullF fuel (pts.drop middle) with
      | some Lh, some Rh => merge_hulls Lh Rh
      | _, _ => none

/-- Python `compute_hull(points)`.  The recursion depth is bounded by the
number of distinct points (each level at least halves the count), so fuel
`n + 1` never runs out on the recursion itself; `none` still signals
divergence of one of the modelled inner loops. -/
def compute_hull (points : List Point) : Option (List Point) :=
  computeHullF ((sortedDedup points).length + 1) points

/-- All wrapping consecutive vertex triples of a vertex sequence. -/
def cyclicTriples (l : List Point) : List (Point × Point × Point) :=
  (List.range l.length).map fun i =>
    (l.getD i (0, 0), l.getD ((i + 1) % l.length) (0, 0),
     l.getD ((i + 2) % l.length) (0, 0))

/-- All wrapping consecutive edges of a vertex sequence. -/
def cyclicPairs (l : List Point) : List (Point × Point) :=
  (List.range l.length).map fun i =>
    (l.getD i (0, 0), l.getD ((i + 1) % l.length) (0, 0))

/-- The convexity property of the specification: every wrapping consecutive
vertex triple satisfies `is_clockwise` or `collinear`. -/
def clockwiseHull (l : List Point) : Bool :=
  (cyclicTriples l).all fun t =>
    is_clockwise t.1 t.2.1 t.2.2 || collinear t.1 t.2.1 t.2.2

/-- The containment property of the specification: no input point is
strictly counter-clockwise of any wrapping hull edge. -/
def containmentOk (pts hull : List Point) : Bool :=
  pts.all fun p =>
    (cyclicPairs hull).all fun e => !(is_counter_clockwise e.1 e.2 p)

/-- An inclusive slice `xs[i..j]` of a vertex sequence (empty when `j < i`). -/
def sliceIncl (xs : List Point) (i j : ℕ) : List Point :=
  (xs.drop i).take (j + 1 - i)

/-- An inclusive walk of a vertex sequence from index `i` through index `j`,
using modular indexing to wrap past the end when `j < i`. -/
def modWalk (xs : List Point) (i j : ℕ) : List Point :=
  if i ≤ j then sliceIncl xs i j else xs.drop i ++ xs.take (j + 1)

/-- The stitch described by the specification (section 4.4, step 4): walk the
left sequence clockwise starting just after the lower-tangent index through
the upper-tangent index inclusive, then walk the right sequence starting
just after the upper-tangent index through the lower-tangent index
inclusive, both with modular wrap-around. -/
def specStitchC6 (L R : List Point) (lower upper : ℕ × ℕ) : List Point :=
  modWalk L ((lower.1 + 1) % L.length) upper.1 ++
    modWalk R ((upper.2 + 1) % R.length) lower.2

/-! ### Bridge lemmas: the integer computations model the float expressions -/

theorem EPSILON_pos : 0 < EPSILON := by norm_num [EPSILON]

theorem EPSILON_lt_half : EPSILON < 1 / 2 := by norm_num [EPSILON]

/-- The executable `is_clockwise` computes the source's float test
`triangle_area(a, b, c) < -EPSILON`. -/
theorem is_clockwise_spec (a b c : Point) :
    is_clockwise a b c = true ↔ triangle_area a b c < -EPSILON := by
  unfold is_clockwise triangle_area
  rw [decide_eq_true_iff]
  constructor
  · intro h
    have h1 : (area2 a b c : ℚ) ≤ -1 := by exact_mod_cast Int.le_sub_one_of_lt h
    have := EPSILON_lt_half
    linarith
  · intro h
    by_contra hn
    push_neg at hn
    have h1 : (0 : ℚ) ≤ (area2 a b c : ℚ) := by exact_mod_cast hn
    have := EPSILON_pos
    linarith

/-- The executable `is_counter_clockwise` computes the source's float test
`triangle_area(a, b, c) > EPSILON`. -/
theorem is_counter_clockwise_spec (a b c : Point) :
    is_counter_clockwise a b c = true ↔ EPSILON < triangle_area a b c := by
  unfold is_counter_clockwise triangle_area
  rw [decide_eq_true_iff]
  constructor
  · intro h
    have h1 : (1 : ℚ) ≤ (area2 a b c : ℚ) := by exact_mod_cast h
    have := EPSILON_lt_half
    linarith
  · intro h
    by_contra hn
    push_neg at hn
    have h1 : (area2 a b c : ℚ) ≤ 0 := by exact_mod_cast hn
    have := EPSILON_pos
    linarith

/-- The executable `collinear` computes the source's float test
`abs(triangle_area(a, b, c)) <= EPSILON`. -/
theorem collinear_spec (a b c : Point) :
    collinear a b c = true ↔ |triangle_area a b c| ≤ EPSILON := by
  unfold collinear triangle_area
  rw [decide_eq_true_iff]
  constructor
  · intro h
    rw [h]
    simpa using EPSILON_pos.le
  · intro h
    rw [abs_le] at h
    have := EPSILON_lt_half
    have h1 : -(1 / 2 : ℚ) < (area2 a b c : ℚ) / 2 := by linarith
    have h2 : (area2 a b c : ℚ) / 2 < 1 / 2 := by linarith
    have h3 : (-1 : ℚ) < (area2 a b c : ℚ) := by linarith
    have h4 : (area2 a b c : ℚ) < 1 := by linarith
    have h5 : (-1 : ℤ) < area2 a b c := by exact_mod_cast h3
    have h6 : area2 a b c < 1 := by exact_mod_cast h4
    omega


/-! ### The lexicographic tuple order is a total order -/

instance : IsTrans Point lexLe :=
  ⟨by intro a b c hab hbc; unfold lexLe at *; omega⟩

instance : IsTotal Point lexLe :=
  ⟨by intro a b; unfold lexLe; omega⟩

instance : IsAntisymm Point lexLe :=
  ⟨by
    intro a b hab hba
    obtain ⟨x, y⟩ := a
    obtain ⟨z, w⟩ := b
    unfold lexLe at hab hba
    simp only at hab hba
    simp only [Prod.mk.injEq]
    omega⟩

/-! ### The angular key order is total and transitive -/

theorem angClassZ_eq_one_iff (v : ℤ × ℤ) : angClassZ v = 1 ↔ 0 < v.2 := by
  constructor
  · intro h
    unfold angClassZ at h
    split_ifs at h <;> omega
  · intro h
    unfold angClassZ
    rw [if_pos h]

theorem angClassZ_eq_three_iff (v : ℤ × ℤ) : angClassZ v = 3 ↔ v.2 < 0 := by
  constructor
  · intro h
    unfold angClassZ at h
    split_ifs at h <;> omega
  · intro h
    unfold angClassZ
    rw [if_neg (by omega), if_neg (by omega)]

theorem crossZ_cycle (u v w : ℤ × ℤ) :
    crossZ u w * v.2 = crossZ u v * w.2 + crossZ v w * u.2 := by
  unfold crossZ
  ring

theorem crossZ_antisymm (u v : ℤ × ℤ) : crossZ v u = -crossZ u v := by
  unfold crossZ
  ring

/-- Within one of the open half-plane strata, a positive cross product is a
transitive relation: the cyclic identity `crossZ_cycle` expresses
`crossZ u w` with the sign-definite denominator `v.2`. -/
theorem crossZ_trans_of_class (u v w : ℤ × ℤ) (k : ℕ)
    (hk : k = 1 ∨ k = 3)
    (hu : angClassZ u = k) (hv : angClassZ v = k) (hw : angClassZ w = k)
    (huv : 0 < crossZ u v) (hvw : 0 < crossZ v w) : 0 < crossZ u w := by
  have hcyc := crossZ_cycle u v w
  rcases hk with hk | hk
  · subst hk
    have hu2 : 0 < u.2 := (angClassZ_eq_one_iff u).mp hu
    have hv2 : 0 < v.2 := (angClassZ_eq_one_iff v).mp hv
    have hw2 : 0 < w.2 := (angClassZ_eq_one_iff w).mp hw
    nlinarith [mul_pos huv hw2, mul_pos hvw hu2]
  · subst hk
    have hu2 : u.2 < 0 := (angClassZ_eq_three_iff u).mp hu
    have hv2 : v.2 < 0 := (angClassZ_eq_three_iff v).mp hv
    have hw2 : w.2 < 0 := (angClassZ_eq_three_iff w).mp hw
    nlinarith [mul_neg_of_pos_of_neg huv hw2, mul_neg_of_pos_of_neg hvw hu2]

theorem angLtZ_trans {u v w : ℤ × ℤ} (huv : angLtZ u v) (hvw : angLtZ v w) :
    angLtZ u w := by
  unfold angLtZ at *
  rcases huv with h1 | ⟨he1, hk1, hc1⟩
  · rcases hvw with h2 | ⟨he2, _, _⟩
    · exact Or.inl (h1.trans h2)
    · exact Or.inl (he2 ▸ h1)
  · rcases hvw with h2 | ⟨he2, hk2, hc2⟩
    · exact Or.inl (he1 ▸ h2)
    · refine Or.inr ⟨he1.trans he2, hk1, ?_⟩
      exact crossZ_trans_of_class u v w (angClassZ u)
        (by omega) rfl he1.symm (he1.trans he2).symm hc1 hc2

theorem angLtZ_of_angLtZ_of_angEqZ {u v w : ℤ × ℤ}
    (huv : angLtZ u v) (hvw : angEqZ v w) : angLtZ u w := by
  unfold angLtZ angEqZ at *
  obtain ⟨he2, hc2⟩ := hvw
  rcases huv with h1 | ⟨he1, hk1, hc1⟩
  · exact Or.inl (he2 ▸ h1)
  · refine Or.inr ⟨he1.trans he2, hk1, ?_⟩
    have hcvw : crossZ v w = 0 := by
      rcases hc2 with h | h | h
      · omega
      · omega
      · exact h
    have hcyc := crossZ_cycle u v w
    rw [hcvw] at hcyc
    rcases hk1 with hk | hk
    · have hv2 : 0 < v.2 := (angClassZ_eq_one_iff v).mp (he1 ▸ hk)
      have hw2 : 0 < w.2 := (angClassZ_eq_one_iff w).mp ((he1.trans he2) ▸ hk)
      nlinarith [mul_pos hc1 hw2]
    · have hv2 : v.2 < 0 := (angClassZ_eq_three_iff v).mp (he1 ▸ hk)
      have hw2 : w.2 < 0 := (angClassZ_eq_three_iff w).mp ((he1.trans he2) ▸ hk)
      nlinarith [mul_neg_of_pos_of_neg hc1 hw2]

theorem angLtZ_of_angEqZ_of_angLtZ {u v w : ℤ × ℤ}
    (huv : angEqZ u v) (hvw : angLtZ v w) : angLtZ u w := by
  unfold angLtZ angEqZ at *
  obtain ⟨he1, hc1⟩ := huv
  rcases hvw with h2 | ⟨he2, hk2, hc2⟩
  · exact Or.inl (he1 ▸ h2)
  · refine Or.inr ⟨he1.trans he2, he1 ▸ hk2, ?_⟩
    have hcuv : crossZ u v = 0 := by
      rcases hc1 with h | h | h
      · omega
      · omega
      · exact h
    have hcyc := crossZ_cycle u v w
    rw [hcuv] at hcyc
    rcases hk2 with hk | hk
    · have hv2 : 0 < v.2 := (angClassZ_eq_one_iff v).mp hk
      have hu2 : 0 < u.2 := (angClassZ_eq_one_iff u).mp (he1.trans hk)
      nlinarith [mul_pos hc2 hu2]
    · have hv2 : v.2 < 0 := (angClassZ_eq_three_iff v).mp hk
      have hu2 : u.2 < 0 := (angClassZ_eq_three_iff u).mp (he1.trans hk)
      nlinarith [mul_neg_of_pos_of_neg hc2 hu2]

theorem angEqZ_trans {u v w : ℤ × ℤ} (huv : angEqZ u v) (hvw : angEqZ v w) :
    angEqZ u w := by
  unfold angEqZ at *
  obtain ⟨he1, hc1⟩ := huv
  obtain ⟨he2, hc2⟩ := hvw
  refine ⟨he1.trans he2, ?_⟩
  by_cases h0 : angClassZ u = 0
  · exact Or.inl h0
  by_cases h2 : angClassZ u = 2
  · exact Or.inr (Or.inl h2)
  have hcuv : crossZ u v = 0 := by
    rcases hc1 with h | h | h
    · omega
    · omega
    · exact h
  have hcvw : crossZ v w = 0 := by
    rcases hc2 with h | h | h
    · omega
    · omega
    · exact h
  have hk : angClassZ u = 1 ∨ angClassZ u = 3 := by
    unfold angClassZ at *
    split_ifs at * <;> omega
  have hv2 : v.2 ≠ 0 := by
    rcases hk with hk | hk
    · exact ((angClassZ_eq_one_iff v).mp (he1 ▸ hk)).ne'
    · exact ((angClassZ_eq_three_iff v).mp (he1 ▸ hk)).ne
  have hcyc := crossZ_cycle u v w
  rw [hcuv, hcvw] at hcyc
  simp only [zero_mul, add_zero] at hcyc
  refine Or.inr (Or.inr ?_)
  rcases mul_eq_zero.mp hcyc with h | h
  · exact h
  · exact absurd h hv2

theorem angEqZ_symm {u v : ℤ × ℤ} (h : angEqZ u v) : angEqZ v u := by
  unfold angEqZ at *
  obtain ⟨he, hc⟩ := h
  refine ⟨he.symm, ?_⟩
  rcases hc with h | h | h
  · exact Or.inl (he ▸ h)
  · exact Or.inr (Or.inl (he ▸ h))
  · refine Or.inr (Or.inr ?_)
    rw [crossZ_antisymm, h, neg_zero]

theorem angZ_trichotomy (u v : ℤ × ℤ) :
    angLtZ u v ∨ angEqZ u v ∨ angLtZ v u := by
  unfold angLtZ angEqZ
  rcases Nat.lt_trichotomy (angClassZ u) (angClassZ v) with h | h | h
  · exact Or.inl (Or.inl h)
  · have hk : angClassZ u = 0 ∨ angClassZ u = 1 ∨ angClassZ u = 2 ∨
        angClassZ u = 3 := by
      unfold angClassZ
      split_ifs <;> omega
    rcases hk with hk | hk | hk | hk
    · exact Or.inr (Or.inl ⟨h, Or.inl hk⟩)
    · rcases lt_trichotomy 0 (crossZ u v) with hc | hc | hc
      · exact Or.inl (Or.inr ⟨h, Or.inl hk, hc⟩)
      · exact Or.inr (Or.inl ⟨h, Or.inr (Or.inr hc.symm)⟩)
      · refine Or.inr (Or.inr (Or.inr ⟨h.symm, Or.inl (h ▸ hk), ?_⟩))
        rw [crossZ_antisymm]
        omega
    · exact Or.inr (Or.inl ⟨h, Or.inr (Or.inl hk)⟩)
    · rcases lt_trichotomy 0 (crossZ u v) with hc | hc | hc
      · exact Or.inl (Or.inr ⟨h, Or.inr hk, hc⟩)
      · exact Or.inr (Or.inl ⟨h, Or.inr (Or.inr hc.symm)⟩)
      · refine Or.inr (Or.inr (Or.inr ⟨h.symm, Or.inr (h ▸ hk), ?_⟩))
        rw [crossZ_antisymm]
        omega
  · exact Or.inr (Or.inr (Or.inl h))

instance (l : List Point) : IsTrans Point (keyLe l) :=
  ⟨by
    intro a b c hab hbc
    unfold keyLe at *
    rcases hab with h1 | ⟨he1, hl1⟩
    · rcases hbc with h2 | ⟨he2, _⟩
      · exact Or.inl (angLtZ_trans h1 h2)
      · exact Or.inl (angLtZ_of_angLtZ_of_angEqZ h1 he2)
    · rcases hbc with h2 | ⟨he2, hl2⟩
      · exact Or.inl (angLtZ_of_angEqZ_of_angLtZ he1 h2)
      · exact Or.inr ⟨angEqZ_trans he1 he2, Trans.trans hl1 hl2⟩⟩

instance (l : List Point) : IsTotal Point (keyLe l) :=
  ⟨by
    intro a b
    unfold keyLe
    rcases angZ_trichotomy (svec l a) (svec l b) with h | h | h
    · exact Or.inl (Or.inl h)
    · rcases total_of lexLe a b with hl | hl
      · exact Or.inl (Or.inr ⟨h, hl⟩)
      · exact Or.inr (Or.inr ⟨angEqZ_symm h, hl⟩)
    · exact Or.inr (Or.inl h)⟩

/-! ### Bridge: the scaled integer key order equals the rational key order -/

theorem cast_sumX (l : List Point) : ((sumX l : ℤ) : ℚ) = (l.map fun p => (p.1 : ℚ)).sum := by
  unfold sumX
  rw [Int.cast_list_sum, List.map_map]
  rfl

theorem cast_sumY (l : List Point) : ((sumY l : ℤ) : ℚ) = (l.map fun p => (p.2 : ℚ)).sum := by
  unfold sumY
  rw [Int.cast_list_sum, List.map_map]
  rfl

theorem length_cast_ne_zero {l : List Point} (hl : l ≠ []) :
    ((l.length : ℚ)) ≠ 0 := by
  have : 0 < l.length := List.length_pos.mpr hl
  exact_mod_cast this.ne'

theorem svec_cast_fst (l : List Point) (hl : l ≠ []) (p : Point) :
    ((svec l p).1 : ℚ) = l.length * (vsub p (centroid l)).1 := by
  have hn := length_cast_ne_zero hl
  unfold svec vsub centroid
  push_cast
  rw [cast_sumX]
  field_simp
  ring

theorem svec_cast_snd (l : List Point) (hl : l ≠ []) (p : Point) :
    ((svec l p).2 : ℚ) = l.length * (vsub p (centroid l)).2 := by
  have hn := length_cast_ne_zero hl
  unfold svec vsub centroid
  push_cast
  rw [cast_sumY]
  field_simp
  ring

theorem angClassZ_svec (l : List Point) (hl : l ≠ []) (p : Point) :
    angClassZ (svec l p) = angClassQ (vsub p (centroid l)) := by
  have hnpos : (0 : ℚ) < l.length := by
    have : 0 < l.length := List.length_pos.mpr hl
    exact_mod_cast this
  have h1 := svec_cast_fst l hl p
  have h2 := svec_cast_snd l hl p
  have hyq : (0 : ℚ) < ((svec l p).2 : ℚ) ↔ 0 < (vsub p (centroid l)).2 := by
    rw [h2]
    exact mul_pos_iff_of_pos_left hnpos
  have hy : 0 < (svec l p).2 ↔ 0 < (vsub p (centroid l)).2 :=
    Int.cast_pos.symm.trans hyq
  have hy0q : ((svec l p).2 : ℚ) = 0 ↔ (vsub p (centroid l)).2 = 0 := by
    rw [h2, mul_eq_zero]
    simp [hnpos.ne']
  have hy0 : (svec l p).2 = 0 ↔ (vsub p (centroid l)).2 = 0 :=
    Int.cast_eq_zero.symm.trans hy0q
  have hxq : (0 : ℚ) ≤ ((svec l p).1 : ℚ) ↔ 0 ≤ (vsub p (centroid l)).1 := by
    rw [h1]
    constructor
    · intro h
      nlinarith
    · intro h
      nlinarith
  have hx : 0 ≤ (svec l p).1 ↔ 0 ≤ (vsub p (centroid l)).1 :=
    Int.cast_nonneg.symm.trans hxq
  unfold angClassZ angClassQ
  simp only [hy, hy0, hx]

theorem crossZ_svec (l : List Point) (hl : l ≠ []) (p q : Point) :
    ((crossZ (svec l p) (svec l q) : ℤ) : ℚ) =
      (l.length : ℚ) ^ 2 * cross (vsub p (centroid l)) (vsub q (centroid l)) := by
  have h1p := svec_cast_fst l hl p
  have h2p := svec_cast_snd l hl p
  have h1q := svec_cast_fst l hl q
  have h2q := svec_cast_snd l hl q
  unfold crossZ cross
  push_cast
  rw [h1p, h2p, h1q, h2q]
  ring

theorem crossZ_svec_pos_iff (l : List Point) (hl : l ≠ []) (p q : Point) :
    0 < crossZ (svec l p) (svec l q) ↔
      0 < cross (vsub p (centroid l)) (vsub q (centroid l)) := by
  have hnpos : (0 : ℚ) < (l.length : ℚ) ^ 2 := by
    have : 0 < l.length := List.length_pos.mpr hl
    positivity
  have hq : (0 : ℚ) < ((crossZ (svec l p) (svec l q) : ℤ) : ℚ) ↔
      0 < cross (vsub p (centroid l)) (vsub q (centroid l)) := by
    rw [crossZ_svec l hl p q]
    exact mul_pos_iff_of_pos_left hnpos
  exact Int.cast_pos.symm.trans hq

theorem crossZ_svec_eq_zero_iff (l : List Point) (hl : l ≠ []) (p q : Point) :
    crossZ (svec l p) (svec l q) = 0 ↔
      cross (vsub p (centroid l)) (vsub q (centroid l)) = 0 := by
  have hn : ((l.length : ℚ) ^ 2) ≠ 0 := by
    have := length_cast_ne_zero hl
    positivity
  have hq : ((crossZ (svec l p) (svec l q) : ℤ) : ℚ) = 0 ↔
      cross (vsub p (centroid l)) (vsub q (centroid l)) = 0 := by
    rw [crossZ_svec l hl p q, mul_eq_zero]
    simp [hn]
  exact Int.cast_eq_zero.symm.trans hq

theorem angLtZ_svec_iff (l : List Point) (hl : l ≠ []) (p q : Point) :
    angLtZ (svec l p) (svec l q) ↔
      angLtQ (vsub p (centroid l)) (vsub q (centroid l)) := by
  unfold angLtZ angLtQ
  rw [angClassZ_svec l hl p, angClassZ_svec l hl q, crossZ_svec_pos_iff l hl p q]

theorem angEqZ_svec_iff (l : List Point) (hl : l ≠ []) (p q : Point) :
    angEqZ (svec l p) (svec l q) ↔
      angEqQ (vsub p (centroid l)) (vsub q (centroid l)) := by
  unfold angEqZ angEqQ
  rw [angClassZ_svec l hl p, angClassZ_svec l hl q, crossZ_svec_eq_zero_iff l hl p q]

/-- The executable sort-key order of `sort_clockwise` coincides with the
order of the tuples `(normalized_angle, x, y)` over the exact rational
centroid, which is what Python's `points.sort(key=sort_key)` compares. -/
theorem keyLe_iff_keyLeQ (l : List Point) (hl : l ≠ []) (p q : Point) :
    keyLe l p q ↔ keyLeQ (centroid l) p q := by
  unfold keyLe keyLeQ
  rw [angLtZ_svec_iff l hl p q, angEqZ_svec_iff l hl p q]

/-! ### Claim theorems -/

/-- C9: `triangle_area(a, b, c)` equals
`((c.x-b.x)*(b.y-a.y) - (b.x-a.x)*(c.y-b.y)) / 2`, and the orientation
predicates compare it against the machine epsilon `EPSILON`:
`is_clockwise` holds exactly when the area is below `-EPSILON`,
`is_counter_clockwise` exactly when it exceeds `EPSILON`, `collinear`
exactly when its absolute value is at most `EPSILON`; in particular a triple
whose area lies within `EPSILON` of zero is classified collinear and is
neither clockwise nor counter-clockwise. -/
theorem claim_C9 (a b c : Point) :
    triangle_area a b c =
      (((c.1 - b.1) * (b.2 - a.2) - (b.1 - a.1) * (c.2 - b.2) : ℤ) : ℚ) / 2 ∧
    (is_clockwise a b c = true ↔ triangle_area a b c < -EPSILON) ∧
    (is_counter_clockwise a b c = true ↔ EPSILON < triangle_area a b c) ∧
    (collinear a b c = true ↔ |triangle_area a b c| ≤ EPSILON) ∧
    (|triangle_area a b c| ≤ EPSILON →
      collinear a b c = true ∧ is_clockwise a b c = false ∧
        is_counter_clockwise a b c = false) := by
  refine ⟨rfl, is_clockwise_spec a b c, is_counter_clockwise_spec a b c,
    collinear_spec a b c, ?_⟩
  intro h
  have h0 : area2 a b c = 0 :=
    of_decide_eq_true ((collinear_spec a b c).mpr h)
  refine ⟨(collinear_spec a b c).mpr h, ?_, ?_⟩
  · simp [is_clockwise, h0]
  · simp [is_counter_clockwise, h0]

/-- Witness for C9 at the collinear triple `(0,0), (1,1), (2,2)`. -/
theorem claim_C9_witness :
    |triangle_area ((0 : ℤ), (0 : ℤ)) (1, 1) (2, 2)| ≤ EPSILON ∧
      (collinear ((0 : ℤ), (0 : ℤ)) (1, 1) (2, 2) = true ∧
        is_clockwise ((0 : ℤ), (0 : ℤ)) (1, 1) (2, 2) = false ∧
        is_counter_clockwise ((0 : ℤ), (0 : ℤ)) (1, 1) (2, 2) = false) := by
  have h : |triangle_area ((0 : ℤ), (0 : ℤ)) (1, 1) (2, 2)| ≤ EPSILON := by
    norm_num [triangle_area, area2, EPSILON]
  exact ⟨h, (claim_C9 ((0 : ℤ), (0 : ℤ)) (1, 1) (2, 2)).2.2.2.2 h⟩

/-- C1 fails on the code: on the three-point input `[(0,0), (1,2), (2,0)]`,
`compute_hull` returns the points unchanged, and the (unique, wrapping)
consecutive triple is `is_counter_clockwise` rather than `is_clockwise` or
`collinear`: the base case emits its hull in counter-clockwise order as
measured by the program's own predicates. -/
theorem claim_C1 :
    compute_hull [((0 : ℤ), (0 : ℤ)), (1, 2), (2, 0)] =
      some [(0, 0), (1, 2), (2, 0)] ∧
    clockwiseHull [((0 : ℤ), (0 : ℤ)), (1, 2), (2, 0)] = false ∧
    is_counter_clockwise ((0 : ℤ), (0 : ℤ)) (1, 2) (2, 0) = true := by
  refine ⟨by decide, by decide, by decide⟩

/-- C2 fails on the code: on the five-point input consisting of the corners
of a square and its centre, `compute_hull` returns the four corners, but the
interior input point `(1,1)` is strictly counter-clockwise of the hull edge
`((0,0), (0,2))` taken in hull order, violating the containment property. -/
theorem claim_C2 :
    compute_hull [((0 : ℤ), (0 : ℤ)), (0, 2), (1, 1), (2, 0), (2, 2)] =
      some [(0, 0), (0, 2), (2, 2), (2, 0)] ∧
    containmentOk [((0 : ℤ), (0 : ℤ)), (0, 2), (1, 1), (2, 0), (2, 2)]
      [(0, 0), (0, 2), (2, 2), (2, 0)] = false ∧
    is_counter_clockwise ((0 : ℤ), (0 : ℤ)) (0, 2) (1, 1) = true := by
  refine ⟨by decide, by decide, by decide⟩

/-- C4 fails on the code: on the three collinear points
`[(0,0), (1,1), (2,2)]` the program returns all three points (the base case
returns lists of at most 3 points unchanged), not the two extreme points
`[(0,0), (2,2)]` required by the specification. -/
theorem claim_C4 :
    compute_hull [((0 : ℤ), (0 : ℤ)), (1, 1), (2, 2)] =
      some [(0, 0), (1, 1), (2, 2)] ∧
    compute_hull [((0 : ℤ), (0 : ℤ)), (1, 1), (2, 2)] ≠
      some [(0, 0), (2, 2)] := by
  refine ⟨by decide, by decide⟩

/-- C7 fails on the code: on the four distinct corners of a square,
`base_case_hull` gift-wraps starting from the lexicographically smallest
point but emits the vertices in counter-clockwise order as measured by the
program's own predicates (the triple `(0,0), (0,3), (3,3)` is
`is_counter_clockwise`). -/
theorem claim_C7 :
    base_case_hull [((0 : ℤ), (0 : ℤ)), (0, 3), (3, 3), (3, 0)] =
      some [(0, 0), (0, 3), (3, 3), (3, 0)] ∧
    clockwiseHull [((0 : ℤ), (0 : ℤ)), (0, 3), (3, 3), (3, 0)] = false ∧
    is_counter_clockwise ((0 : ℤ), (0 : ℤ)) (0, 3) (3, 3) = true := by
  refine ⟨by decide, by decide, by decide⟩

/-- Counterexample to C8 as stated: on six collinear points the returned
hull contains the point `(3,3)` twice, so a point can appear more than once
in the output (the duplicate-free part of the claim fails; the
`points ++ points` invariance part holds and is `claim_C8`). -/
theorem claim_C8_counterexample :
    compute_hull [((0 : ℤ), (0 : ℤ)), (1, 1), (2, 2), (3, 3), (4, 4), (5, 5)] =
      some [(2, 2), (3, 3), (4, 4), (5, 5), (3, 3)] ∧
    ¬ List.Nodup [((2 : ℤ), (2 : ℤ)), (3, 3), (4, 4), (5, 5), (3, 3)] := by
  refine ⟨by decide, by decide⟩

/-- Deduplicating and lexicographically sorting is invariant under appending
a copy of the list: both sides are sorted duplicate-free lists with the same
members, hence equal. -/
theorem sortedDedup_append_self (l : List Point) :
    sortedDedup (l ++ l) = sortedDedup l := by
  have hperm : (l ++ l).dedup.Perm l.dedup := by
    refine (List.perm_ext_iff_of_nodup (List.nodup_dedup _)
      (List.nodup_dedup _)).mpr ?_
    intro a
    simp [List.mem_dedup]
  have h1 : List.Sorted lexLe (sortedDedup (l ++ l)) :=
    List.sorted_insertionSort lexLe _
  have h2 : List.Sorted lexLe (sortedDedup l) :=
    List.sorted_insertionSort lexLe _
  have hp : (sortedDedup (l ++ l)).Perm (sortedDedup l) := by
    unfold sortedDedup sortLex
    exact ((List.perm_insertionSort lexLe _).trans hperm).trans
      (List.perm_insertionSort lexLe _).symm
  exact List.eq_of_perm_of_sorted hp h1 h2

/-- Two inputs with the same deduplicated, sorted point set drive
`computeHullF` identically: the very first thing every call does is to
deduplicate and sort its argument. -/
theorem computeHullF_congr (fuel : ℕ) (p q : List Point)
    (h : sortedDedup p = sortedDedup q) :
    computeHullF fuel p = computeHullF fuel q := by
  cases fuel with
  | zero => rfl
  | succ f =>
    simp only [computeHullF]
    rw [h]

/-- C8, the part that holds: `compute_hull (points ++ points)` equals
`compute_hull points` for every list of points, because `compute_hull`
deduplicates before any geometric computation.  (The claim's other part,
that no point appears more than once in the output, fails:
`claim_C8_counterexample`.) -/
theorem claim_C8 (points : List Point) :
    compute_hull (points ++ points) = compute_hull points := by
  unfold compute_hull
  rw [sortedDedup_append_self]
  exact computeHullF_congr _ _ _ (sortedDedup_append_self points)

/-- C3: for 2 or more points, `sort_clockwise` permutes the list into the
order of ascending normalized angle about the arithmetic-mean centroid
(the program's `(atan2 + tau) % tau` key, modelled by `keyLeQ`), breaking
angle ties by ascending x and then ascending y; for fewer than 2 points the
list is returned unchanged. -/
theorem claim_C3 (points : List Point) :
    (2 ≤ points.length →
      (sort_clockwise points).Perm points ∧
      List.Sorted (keyLeQ (centroid points)) (sort_clockwise points)) ∧
    (points.length < 2 → sort_clockwise points = points) := by
  constructor
  · intro h2
    have hne : points ≠ [] := by
      intro h
      rw [h] at h2
      simp at h2
    have hdef : sort_clockwise points =
        List.insertionSort (keyLe points) points := by
      unfold sort_clockwise
      rw [if_neg (by omega)]
    constructor
    · rw [hdef]
      exact List.perm_insertionSort _ _
    · rw [hdef]
      have hs : List.Sorted (keyLe points)
          (List.insertionSort (keyLe points) points) :=
        List.sorted_insertionSort _ _
      exact hs.imp fun hab => (keyLe_iff_keyLeQ points hne _ _).mp hab
  · intro h
    unfold sort_clockwise
    rw [if_pos h]

/-- Witness for C3: the sorting branch at a concrete four-point list and the
no-op branch at a concrete one-point list. -/
theorem claim_C3_witness :
    ((sort_clockwise [((0 : ℤ), (0 : ℤ)), (2, 0), (1, 1), (1, -1)]).Perm
        [((0 : ℤ), (0 : ℤ)), (2, 0), (1, 1), (1, -1)] ∧
      List.Sorted (keyLeQ (centroid [((0 : ℤ), (0 : ℤ)), (2, 0), (1, 1), (1, -1)]))
        (sort_clockwise [((0 : ℤ), (0 : ℤ)), (2, 0), (1, 1), (1, -1)])) ∧
    sort_clockwise [((5 : ℤ), (5 : ℤ))] = [(5, 5)] :=
  ⟨(claim_C3 [((0 : ℤ), (0 : ℤ)), (2, 0), (1, 1), (1, -1)]).1 (by decide),
   (claim_C3 [((5 : ℤ), (5 : ℤ))]).2 (by decide)⟩

/-- Reading a block of indices out of a list equals a drop-and-take slice. -/
theorem map_getD_range' (xs : List Point) :
    ∀ (k i : ℕ), i + k ≤ xs.length →
      (List.range' i k).map (fun j => xs.getD j (0, 0)) = (xs.drop i).take k := by
  intro k
  induction k with
  | zero => intro i _; simp
  | succ k ih =>
    intro i h
    have hi : i < xs.length := by omega
    rw [List.range'_succ, List.map_cons, List.getD_eq_getElem xs (0, 0) hi,
      List.drop_eq_getElem_cons hi, List.take_succ_cons]
    rw [ih (i + 1) (by omega)]

/-- The wrap-around branch of the right-hand stitch loops equals a
drop-and-take decomposition of the right hull. -/
theorem stitchRight_wrap (R : List Point) (u l : ℕ) (hu : u ≤ R.length)
    (hl : l < R.length) :
    ((List.range' u (R.length - u)).map fun i => R.getD i (0, 0)) ++
      ((List.range (l + 1)).map fun i => R.getD i (0, 0)) =
      R.drop u ++ R.take (l + 1) := by
  congr 1
  · rw [map_getD_range' R (R.length - u) u (by omega)]
    rw [← List.length_drop]
    exact List.take_length _
  · rw [List.range_eq_range']
    have h0 := map_getD_range' R (l + 1) 0 (by omega)
    simpa using h0

/-- C6 amended: after the tangent search, the code's stitch walks the left
hull from the lower-tangent index (inclusive, not "just after") through the
upper-tangent index inclusive with no modular wrap (the walk is empty when
the lower index exceeds the upper), and walks the right hull from the
upper-tangent index (inclusive, not "just after") through the lower-tangent
index inclusive with modular wrap past the end; when the two right indices
coincide, the wrap branch emits all of the right hull and repeats the
tangent vertex. -/
theorem claim_C6_amended (L R : List Point) (lower upper : ℕ × ℕ)
    (hu0 : upper.1 < L.length) (hu1 : upper.2 < R.length)
    (hl1 : lower.2 < R.length) :
    stitch L R lower upper =
      sliceIncl L lower.1 upper.1 ++
        (if upper.2 = lower.2 then R.drop upper.2 ++ R.take (upper.2 + 1)
         else modWalk R upper.2 lower.2) := by
  unfold stitch
  congr 1
  · unfold sliceIncl
    rcases le_or_lt lower.1 upper.1 with h | h
    · exact map_getD_range' L _ _ (by omega)
    · have h0 : upper.1 + 1 - lower.1 = 0 := by omega
      rw [h0]
      simp
  · rcases lt_trichotomy upper.2 lower.2 with h | h | h
    · rw [if_pos h, if_neg (by omega)]
      unfold modWalk
      rw [if_pos h.le]
      unfold sliceIncl
      exact map_getD_range' R _ _ (by omega)
    · rw [if_neg (by omega), if_pos h]
      rw [h] at hu1 ⊢
      exact stitchRight_wrap R lower.2 lower.2 hu1.le hl1
    · rw [if_neg (by omega), if_neg (by omega)]
      unfold modWalk
      rw [if_neg (by omega)]
      exact stitchRight_wrap R upper.2 lower.2 hu1.le hl1

/-- Witness for the amended C6 at the merge of two concrete squares, where
the tangent search returns upper tangent `(3, 2)` and lower tangent
`(0, 1)`. -/
theorem claim_C6_witness :
    ((3 : ℕ) < ([((2 : ℤ), (2 : ℤ)), (0, 2), (0, 0), (2, 0)] : List Point).length ∧
      (2 : ℕ) < ([((7 : ℤ), (2 : ℤ)), (5, 2), (5, 0), (7, 0)] : List Point).length ∧
      (1 : ℕ) < ([((7 : ℤ), (2 : ℤ)), (5, 2), (5, 0), (7, 0)] : List Point).length) ∧
    stitch [((2 : ℤ), (2 : ℤ)), (0, 2), (0, 0), (2, 0)]
        [((7 : ℤ), (2 : ℤ)), (5, 2), (5, 0), (7, 0)] (0, 1) (3, 2) =
      sliceIncl [((2 : ℤ), (2 : ℤ)), (0, 2), (0, 0), (2, 0)] 0 3 ++
        (if (2 : ℕ) = 1 then
          ([((7 : ℤ), (2 : ℤ)), (5, 2), (5, 0), (7, 0)] : List Point).drop 2 ++
            ([((7 : ℤ), (2 : ℤ)), (5, 2), (5, 0), (7, 0)] : List Point).take 3
         else modWalk [((7 : ℤ), (2 : ℤ)), (5, 2), (5, 0), (7, 0)] 2 1) :=
  ⟨⟨by decide, by decide, by decide⟩,
    claim_C6_amended [((2 : ℤ), (2 : ℤ)), (0, 2), (0, 0), (2, 0)]
      [((7 : ℤ), (2 : ℤ)), (5, 2), (5, 0), (7, 0)] (0, 1) (3, 2)
      (by decide) (by decide) (by decide)⟩

/-- Counterexample to C6 as stated: merging two concrete squares, the
tangent search returns upper tangent `(3, 2)` and lower tangent `(0, 1)`,
and the returned hull is not the specification's stitch (which starts each
walk just after its tangent index): the code's walks start at the tangent
indices themselves. -/
theorem claim_C6_counterexample :
    merge_hulls [((0 : ℤ), (0 : ℤ)), (0, 2), (2, 2), (2, 0)]
        [((5 : ℤ), (0 : ℤ)), (5, 2), (7, 2), (7, 0)] =
      some [(2, 2), (0, 2), (0, 0), (2, 0), (5, 0), (7, 0), (7, 2), (5, 2)] ∧
    upperLoop (sort_clockwise [((0 : ℤ), (0 : ℤ)), (0, 2), (2, 2), (2, 0)])
        (sort_clockwise [((5 : ℤ), (0 : ℤ)), (5, 2), (7, 2), (7, 0)]) 18
        (right_of_left_idx
          (sort_clockwise [((0 : ℤ), (0 : ℤ)), (0, 2), (2, 2), (2, 0)]),
         left_of_right_idx
          (sort_clockwise [((5 : ℤ), (0 : ℤ)), (5, 2), (7, 2), (7, 0)])) =
      some (3, 2) ∧
    lowerLoop (sort_clockwise [((0 : ℤ), (0 : ℤ)), (0, 2), (2, 2), (2, 0)])
        (sort_clockwise [((5 : ℤ), (0 : ℤ)), (5, 2), (7, 2), (7, 0)]) 18
        (right_of_left_idx
          (sort_clockwise [((0 : ℤ), (0 : ℤ)), (0, 2), (2, 2), (2, 0)]),
         left_of_right_idx
          (sort_clockwise [((5 : ℤ), (0 : ℤ)), (5, 2), (7, 2), (7, 0)])) =
      some (0, 1) ∧
    specStitchC6 (sort_clockwise [((0 : ℤ), (0 : ℤ)), (0, 2), (2, 2), (2, 0)])
        (sort_clockwise [((5 : ℤ), (0 : ℤ)), (5, 2), (7, 2), (7, 0)])
        (0, 1) (3, 2) ≠
      [(2, 2), (0, 2), (0, 0), (2, 0), (5, 0), (7, 0), (7, 2), (5, 2)] := by
  refine ⟨by decide, by decide, by decide, by decide⟩

end ConvexHull
